import Mathlib

/-!
Shallow embedding of the elastic audio/video synchronization core of the
visionary-video-editor repository.

Times and rates are rational numbers; the source uses JS doubles, and every
claim-relevant computation is plain field arithmetic and comparisons, so ℚ is
an exact model of the intended real-number behaviour.

Sources embedded here:
  * the `Clip` record of `src/types.ts`;
  * the global helpers, the master-audio sequencer tick (`onAudioTimeUpdate`),
    the anchor-based audio slicer inside `handleGenerateAllAudio`, and the edit
    handlers (`handleSaveEdit`, `moveClip`, `deleteClip`, `splitClipAtPlayhead`,
    `invalidateMasterAudio`) of the editor component in
    `src/supabase-schema.sql`;
  * the export render loop of `src/services/ffmpegService.ts`;
  * the sequence/source time mapper of
    `src/components/advanced-timeline/Timeline.tsx`.
-/

namespace Visionary

/-- The `Clip` record from `src/types.ts`, restricted to the fields the
synchronization core reads.  Optional fields are `Option`-valued exactly where
the TypeScript fields are optional. -/
structure Clip where
  id : String
  title : String
  startTime : ℚ
  endTime : ℚ
  transcript : Option String := none
  improvedTranscript : Option String := none
  audioStartTime : Option ℚ := none
  audioEndTime : Option ℚ := none
  videoRate : Option ℚ := none
  deriving Repr, DecidableEq, Inhabited

/-- The per-clip audio annotation triple (`audioStartTime`, `audioEndTime`,
`videoRate`); the fields claim C1 is about. -/
def Clip.audioFields (c : Clip) : Option ℚ × Option ℚ × Option ℚ :=
  (c.audioStartTime, c.audioEndTime, c.videoRate)

/-- `MAX_VIDEO_RATE = 1.5` from `src/supabase-schema.sql` line 349. -/
def MAX_VIDEO_RATE : ℚ := 3/2

/-- `getClipDuration` from `src/supabase-schema.sql` lines 335-342: audio-based
duration when the clip carries a master-audio range, else visual duration. -/
def getClipDuration (c : Clip) : ℚ :=
  match c.audioStartTime, c.audioEndTime with
  | some s, some e => e - s
  | _, _ => c.endTime - c.startTime

/-! The master-audio sequencer tick (`onAudioTimeUpdate`,
`src/supabase-schema.sql` lines 647-721).  The end-of-timeline branch (UI
reset when no clip contains the audio time) only pauses playback and rewinds
the UI; the claims concern the sync branch, modelled here. -/

/-- The predicate of the `clips.findIndex` call at the top of
`onAudioTimeUpdate`: the clip has both audio fields and its
`[audioStartTime, audioEndTime)` window contains the current audio time. -/
def audioClipPred (audioTime : ℚ) (c : Clip) : Bool :=
  c.audioStartTime.isSome && c.audioEndTime.isSome &&
    decide (c.audioStartTime.getD 0 ≤ audioTime) &&
    decide (audioTime < c.audioEndTime.getD 0)

/-- `targetVideoTime = currentClip.startTime + (progress * videoDuration)`
with `progress = (audioTime - audioStartTime) / audioDuration`
(`src/supabase-schema.sql` lines 669-676). -/
def targetVideoTime (audioTime : ℚ) (c : Clip) : ℚ :=
  let audioDuration := c.audioEndTime.getD 0 - c.audioStartTime.getD 0
  let videoDuration := c.endTime - c.startTime
  let progress := (audioTime - c.audioStartTime.getD 0) / audioDuration
  c.startTime + progress * videoDuration

/-- The live rate capping of `src/supabase-schema.sql` lines 680-688: cap at
`MAX_VIDEO_RATE`, then floor at `0.1`. -/
def applyLiveRateCap (raw : ℚ) : ℚ :=
  max (1/10) (if raw > MAX_VIDEO_RATE then MAX_VIDEO_RATE else raw)

/-- Outcome of one sequencer tick for the clip containing the audio time: the
playback rate written to the video element, and the seek target written to
`vid.currentTime`, if any. -/
structure TickResult where
  requiredRate : ℚ
  seekTo : Option ℚ
  deriving Repr, DecidableEq

/-- The elastic-sync body of `onAudioTimeUpdate` for the located clip
(`src/supabase-schema.sql` lines 666-701): compute the required rate from the
duration ratio times the global speed, cap it, then either drift-correct
against `targetVideoTime` with a 0.2s threshold (rate below the ceiling) or
only guard against falling behind the clip's start (rate pinned at the
ceiling). -/
def syncForClip (speed audioTime vidCurrentTime : ℚ) (c : Clip) : TickResult :=
  let audioDuration := c.audioEndTime.getD 0 - c.audioStartTime.getD 0
  let videoDuration := c.endTime - c.startTime
  let requiredRate := applyLiveRateCap (videoDuration / audioDuration * speed)
  let seekTo :=
    if requiredRate < MAX_VIDEO_RATE then
      if |vidCurrentTime - targetVideoTime audioTime c| > 1/5 then
        some (targetVideoTime audioTime c)
      else none
    else
      if vidCurrentTime < c.startTime then some c.startTime else none
  ⟨requiredRate, seekTo⟩

/-- One `onAudioTimeUpdate` tick: locate the clip containing the current audio
time and run the elastic sync for it; `none` when no clip contains the time
(the end-of-timeline branch, which performs no sync). -/
def onAudioTimeUpdate (clips : List Clip) (speed audioTime vidCurrentTime : ℚ) :
    Option TickResult :=
  match clips.find? (audioClipPred audioTime) with
  | some c => some (syncForClip speed audioTime vidCurrentTime c)
  | none => none

/-- `rate` computation of the slicer's assignment step
(`src/supabase-schema.sql` lines 1152-1157): `videoDur / audioDur` guarded by
`audioDur > 0.1`, else `1.0`. -/
def computeClipRate (videoDur audioDur : ℚ) : ℚ :=
  if audioDur > 1/10 then videoDur / audioDur else 1

/-- The export-side rate clamp of `src/services/ffmpegService.ts` line 265:
`Math.max(0.1, Math.min(4.0, requiredRate))`. -/
def applyExportRateClamp (raw : ℚ) : ℚ :=
  max (1/10) (min 4 raw)

/-! The anchor-based audio slicer of `handleGenerateAllAudio`
(`src/supabase-schema.sql` lines 1084-1166). -/

/-- One `{ start, end }` boundary pushed onto `clipBoundaries`; the `end`
field is called `stop` here because `end` is a Lean keyword. -/
structure Boundary where
  start : ℚ
  stop : ℚ
  deriving Repr, DecidableEq, Inhabited

/-- The delimiter scan loop of `src/supabase-schema.sql` lines 1101-1124:
`for (let i = 0; i < alignChars.length - 2; i++)`, matching three consecutive
`'.'` characters, closing the current clip at the start-time of the first dot,
restarting the next clip at the start-time of the character after the
delimiter (falling back to the last dot's end-time), and advancing `i` past
the matched run (`i += 2` plus the loop increment). -/
def scanAux (chars : List Char) (starts stops : List ℚ) (i : ℕ)
    (currentClipStart : ℚ) (acc : List Boundary) : List Boundary × ℚ :=
  if h : i + 2 < chars.length then
    if chars.getD i ' ' == '.' && chars.getD (i+1) ' ' == '.' &&
        chars.getD (i+2) ' ' == '.' then
      let clipEnd := starts.getD i 0
      let newStart :=
        if i + 3 < starts.length then starts.getD (i+3) 0 else stops.getD (i+2) 0
      scanAux chars starts stops (i+3) newStart (acc ++ [⟨currentClipStart, clipEnd⟩])
    else
      scanAux chars starts stops (i+1) currentClipStart acc
  else (acc, currentClipStart)
termination_by chars.length - i
decreasing_by all_goals omega

/-- `clipBoundaries` of `src/supabase-schema.sql` lines 1093-1131: run the
delimiter scan from index 0 with clip start 0, then push the final clip ending
at the end-time of the last alignment character. -/
def clipBoundaries (chars : List Char) (starts stops : List ℚ) : List Boundary :=
  let r := scanAux chars starts stops 0 0 []
  r.1 ++ [⟨r.2, stops.getD (stops.length - 1) 0⟩]

/-- One element of the `clipUpdates` array built at
`src/supabase-schema.sql` lines 1135-1166. -/
structure ClipUpdate where
  id : String
  start : ℚ
  stop : ℚ
  rate : ℚ
  deriving Repr, DecidableEq, Inhabited

/-- Body of the `tasks.forEach((clip, idx) => ...)` assignment at
`src/supabase-schema.sql` lines 1139-1165 for one in-range index: pause
absorption extends the clip's end to the next boundary's start (last clip:
`+0.5` padding), then the rate is computed from the extended audio duration. -/
def mkClipUpdate (clip : Clip) (bs : List Boundary) (idx : ℕ) : ClipUpdate :=
  let boundary := bs.getD idx default
  let extendedEnd :=
    if idx < bs.length - 1 then (bs.getD (idx+1) default).start
    else boundary.stop + 1/2
  let audioDur := extendedEnd - boundary.start
  let videoDur := clip.endTime - clip.startTime
  ⟨clip.id, boundary.start, extendedEnd, computeClipRate videoDur audioDur⟩

/-- The `tasks.forEach((clip, idx) => { if (idx < clipBoundaries.length) ... })`
loop: an update is produced for a task only while a boundary with the same
positional index exists; later tasks are skipped silently. -/
def clipUpdatesAux : List Clip → List Boundary → ℕ → List ClipUpdate
  | [], _, _ => []
  | clip :: rest, bs, idx =>
    (if idx < bs.length then [mkClipUpdate clip bs idx] else []) ++
      clipUpdatesAux rest bs (idx + 1)

/-- The complete assignment step: pair tasks with boundaries by positional
index starting at 0. -/
def clipUpdates (tasks : List Clip) (bs : List Boundary) : List ClipUpdate :=
  clipUpdatesAux tasks bs 0

/-- Modelled from the spec: the validation `len(boundaries) == len(texts)`
surfacing a distinguishable `DelimiterMismatch` state (spec §4.1 and §7); this
validation is absent from the repository code, which runs `clipUpdates`
unconditionally. -/
def sliceWithMismatchCheck (tasks : List Clip) (bs : List Boundary) :
    Except String (List ClipUpdate) :=
  if bs.length = tasks.length then Except.ok (clipUpdates tasks bs)
  else Except.error "DelimiterMismatch"

end Visionary

/-! The sequence/source time mapper of
`src/components/advanced-timeline/Timeline.tsx`. -/

namespace Visionary.Timeline

/-- `getClipDuration` of `Timeline.tsx` lines 36-38: always the visual
duration (unlike the editor's audio-aware helper). -/
def getClipDuration (c : Clip) : ℚ := c.endTime - c.startTime

/-- The raw accumulated duration `clips.reduce((acc, clip) => acc +
getClipDuration(clip), 0)` (`Timeline.tsx` line 419 without the `|| 60`). -/
def sequenceDurationSum (clips : List Clip) : ℚ :=
  clips.foldl (fun acc c => acc + getClipDuration c) 0

/-- `totalSequenceDuration` of `Timeline.tsx` lines 418-420: the accumulated
duration, or 60 when that accumulation is zero (the JS `|| 60` fallback). -/
def totalSequenceDuration (clips : List Clip) : ℚ :=
  if sequenceDurationSum clips = 0 then 60 else sequenceDurationSum clips

/-- The scanning loop of `rawVideoTimeToSequenceTime` (`Timeline.tsx` lines
439-452): walk the clips accumulating sequence time; on the first clip whose
`[startTime, endTime)` window contains the raw time, return the accumulated
time plus the offset within the clip. -/
def rawToSeqAux (raw : ℚ) : List Clip → ℚ → Option ℚ
  | [], _ => none
  | c :: rest, acc =>
    if c.startTime ≤ raw ∧ raw < c.endTime then some (acc + (raw - c.startTime))
    else rawToSeqAux raw rest (acc + getClipDuration c)

/-- `rawVideoTimeToSequenceTime` of `Timeline.tsx` lines 439-459, including
the fallbacks: before the first clip maps to 0, otherwise to the total
sequence duration. -/
def rawVideoTimeToSequenceTime (clips : List Clip) (raw : ℚ) : ℚ :=
  match rawToSeqAux raw clips 0 with
  | some s => s
  | none =>
    match clips with
    | [] => totalSequenceDuration clips
    | c :: _ => if raw < c.startTime then 0 else totalSequenceDuration clips

/-- Return value of `sequenceTimeToRawVideoTime`: the raw video time and the
clip it landed in (`null` for the empty list). -/
structure SeqToRawResult where
  rawTime : ℚ
  clipInfo : Option Clip
  deriving Repr, DecidableEq

/-- The scanning loop of `sequenceTimeToRawVideoTime` (`Timeline.tsx` lines
466-472): find the clip whose accumulated-duration window contains the
(clamped) sequence time and return the clip's start plus the offset. -/
def seqToRawAux (seq : ℚ) : List Clip → ℚ → Option (ℚ × Clip)
  | [], _ => none
  | c :: rest, acc =>
    if acc ≤ seq ∧ seq < acc + getClipDuration c then
      some (c.startTime + (seq - acc), c)
    else seqToRawAux seq rest (acc + getClipDuration c)

/-- `sequenceTimeToRawVideoTime` of `Timeline.tsx` lines 462-485: clamp the
input to `[0, totalSequenceDuration]`, scan for the containing clip, and fall
back to the last clip's end (within 0.001 of the final sequence position) or
the first clip's start. -/
def sequenceTimeToRawVideoTime (clips : List Clip) (seqTime : ℚ) : SeqToRawResult :=
  let clamped := max 0 (min seqTime (totalSequenceDuration clips))
  match seqToRawAux clamped clips 0 with
  | some rc => ⟨rc.1, some rc.2⟩
  | none =>
    match clips with
    | [] => ⟨0, none⟩
    | c :: _ =>
      if clamped ≥ sequenceDurationSum clips - 1/1000 then
        ⟨(clips.getLastD default).endTime, some (clips.getLastD default)⟩
      else ⟨c.startTime, some c⟩

end Visionary.Timeline

/-! The export render loop of `src/services/ffmpegService.ts`, modelled as a
state machine over the single-threaded event queue: the `audioElement.onended`
callback and the `requestAnimationFrame` loop iterations are the events. -/

namespace Visionary

/-- Observable export state: the `isFinished` guard flag of `renderVideo`, a
count of how many times the body of `finishRender` ran, the teardown actions
it performs (cancel the scheduled frame, pause the media elements, stop the
recorder — which resolves the promise with the blob via `recorder.onstop`),
and the list of progress percentages reported so far. -/
structure RenderState where
  isFinished : Bool
  finishCount : ℕ
  frameCancelled : Bool
  mediaPaused : Bool
  recorderStopped : Bool
  resolved : Bool
  progressReports : List ℤ
  deriving Repr, DecidableEq

/-- Export state at `recorder.start()`: nothing finished, no reports. -/
def initialRenderState : RenderState :=
  ⟨false, 0, false, false, false, false, []⟩

/-- `finishRender` of `src/services/ffmpegService.ts` lines 168-182: an
idempotent guard (`if (isFinished) return; isFinished = true;`) followed by
cancelling the animation frame, pausing audio and video, and stopping the
recorder (whose `onstop` resolves the promise with the encoded blob). -/
def finishRender (s : RenderState) : RenderState :=
  if s.isFinished then s
  else { s with
    isFinished := true
    finishCount := s.finishCount + 1
    frameCancelled := true
    mediaPaused := true
    recorderStopped := true
    resolved := true }

/-- `totalDuration` of `renderVideo` (`ffmpegService.ts` lines 83-88):
`clips.reduce` of the audio-based duration when both audio fields are present,
else the video-based duration. -/
def exportTotalDuration (clips : List Clip) : ℚ :=
  clips.foldl (fun acc c =>
    match c.audioStartTime, c.audioEndTime with
    | some s, some e => acc + (e - s)
    | _, _ => acc + (c.endTime - c.startTime)) 0

/-- The per-frame progress percentage of `renderLoop` (`ffmpegService.ts`
line 214): `Math.min(100, Math.round((currentTime / totalDuration) * 100))`. -/
def progressPct (currentTime totalDuration : ℚ) : ℤ :=
  min 100 (round (currentTime / totalDuration * 100))

/-- An export event: the audio element's `ended` callback firing, or one
`renderLoop` frame observing the `audioElement.ended` flag and the current
authority time. -/
inductive RenderEvent where
  | audioEnded
  | tick (ended : Bool) (currentTime : ℚ)
  deriving Repr, DecidableEq

/-- One event step of the export engine.  `audioEnded` runs `finishRender`
(`ffmpegService.ts` lines 185-190).  A frame tick (`renderLoop`, lines
199-227) returns immediately when already finished, otherwise reports
progress and then runs `finishRender` when the `ended` flag is set or the
current time has reached `totalDuration - 0.1` (the drawing and video-sync
work below that check does not affect completion and is modelled by the
claims about `applyExportRateClamp` and `progressPct`). -/
def renderStep (totalDuration : ℚ) (s : RenderState) : RenderEvent → RenderState
  | RenderEvent.audioEnded => finishRender s
  | RenderEvent.tick ended t =>
    if s.isFinished then s
    else
      let s1 := { s with progressReports := s.progressReports ++ [progressPct t totalDuration] }
      if ended || decide (t ≥ totalDuration - 1/10) then finishRender s1 else s1

/-- Run the export engine over a queue of events. -/
def runRender (totalDuration : ℚ) (events : List RenderEvent) (s : RenderState) :
    RenderState :=
  events.foldl (renderStep totalDuration) s

/-- Whether an event makes the completion condition of `renderLoop` /
`onended` true. -/
def triggersFinish (totalDuration : ℚ) : RenderEvent → Bool
  | RenderEvent.audioEnded => true
  | RenderEvent.tick ended t => ended || decide (t ≥ totalDuration - 1/10)

end Visionary

/-! The editor state and the four edit operations of claim C1
(`src/supabase-schema.sql`).  Fields of the React component irrelevant to the
claims (playback flags, chat messages, project metadata beyond the master
audio handle) are omitted; `generateId()` results enter as parameters. -/

namespace Visionary

/-- Direction argument of `moveClip`. -/
inductive MoveDir where
  | left
  | right
  deriving Repr, DecidableEq

/-- Editor state slice: the clip list, the master-audio object URL, the
project's master-audio flag (standing for `masterAudioStoragePath` /
`hasMasterAudio` cleared by `clearProjectMasterAudio`), and the transcript
editing state.  An active project is assumed (the editor is only reachable
with `projectReady`). -/
structure AppState where
  clips : List Clip
  masterAudioUrl : Option String
  hasMasterAudio : Bool
  editingClipId : Option String
  editingText : String
  activeClipId : Option String
  deriving Repr, DecidableEq

/-- `invalidateMasterAudio` of `src/supabase-schema.sql` lines 533-544: null
the master-audio URL and clear the project's master-audio record.  It does not
touch `clips`. -/
def invalidateMasterAudio (st : AppState) : AppState :=
  { st with masterAudioUrl := none, hasMasterAudio := false }

/-- `handleSaveEdit` of `src/supabase-schema.sql` lines 1455-1465: guard on a
clip being edited, write `editingText` into that clip's `improvedTranscript`,
invalidate the master audio, and leave edit mode. -/
def handleSaveEdit (st : AppState) : AppState :=
  match st.editingClipId with
  | none => st
  | some eid =>
    let st1 := { st with
      clips := st.clips.map fun c =>
        if c.id == eid then { c with improvedTranscript := some st.editingText } else c }
    { invalidateMasterAudio st1 with editingClipId := none }

/-- The `targetIndex` of `moveClip` (`src/supabase-schema.sql` line 1348),
kept in ℤ because the JS index may be `-1`. -/
def moveTargetIndex (index : ℕ) : MoveDir → ℤ
  | MoveDir.left => (index : ℤ) - 1
  | MoveDir.right => (index : ℤ) + 1

/-- `moveClip` of `src/supabase-schema.sql` lines 1346-1354: swap the clip at
`index` with its neighbour when the target index is in range, then invalidate
the master audio; otherwise do nothing. -/
def moveClip (index : ℕ) (dir : MoveDir) (st : AppState) : AppState :=
  let target := moveTargetIndex index dir
  if 0 ≤ target ∧ target < (st.clips.length : ℤ) then
    let t := target.toNat
    let newClips := (st.clips.set index (st.clips.getD t default)).set t
      (st.clips.getD index default)
    invalidateMasterAudio { st with clips := newClips }
  else st

/-- JS array indexing with a possibly negative index, used by the
`newClips[i] || ...` fallback chain of `deleteClip`. -/
def jsIndex (l : List Clip) (i : ℤ) : Option Clip :=
  if i < 0 then none else l.get? i.toNat

/-- `deleteClip` of `src/supabase-schema.sql` lines 1356-1372: remove the clip,
re-target the active clip through the `newClips[currentIndex] ||
newClips[currentIndex - 1] || newClips[0]` chain when the deleted clip was
active, and invalidate the master audio. -/
def deleteClip (clipId : String) (st : AppState) : AppState :=
  let currentIndex : ℤ :=
    match st.clips.findIdx? (fun c => c.id == clipId) with
    | some i => (i : ℤ)
    | none => -1
  let newClips := st.clips.filter fun c => c.id != clipId
  let newActive :=
    if st.activeClipId = some clipId then
      (((jsIndex newClips currentIndex).orElse
          (fun _ => jsIndex newClips (currentIndex - 1))).orElse
          (fun _ => jsIndex newClips 0)).map Clip.id
    else st.activeClipId
  invalidateMasterAudio { st with clips := newClips, activeClipId := newActive }

/-- `splitClipAtPlayhead` of `src/supabase-schema.sql` lines 1425-1446: when
the playhead is strictly inside the active clip with 0.5s margins, replace the
clip by two halves that inherit all of its fields (the audio range and rate
included) apart from the adjusted cut times, titles and fresh ids, activate
the second half, and invalidate the master audio.  `currentTime` is the video
element's playhead; `idA`/`idB` are the two `generateId()` results. -/
def splitClipAtPlayhead (currentTime : ℚ) (idA idB : String) (st : AppState) :
    AppState :=
  match st.activeClipId with
  | none => st
  | some aid =>
    match st.clips.findIdx? (fun c => c.id == aid) with
    | none => st
    | some j =>
      let clip := st.clips.getD j default
      if currentTime > clip.startTime + 1/2 ∧ currentTime < clip.endTime - 1/2 then
        let clipA : Clip :=
          { clip with id := idA, endTime := currentTime, title := clip.title ++ " (Cut 1)" }
        let clipB : Clip :=
          { clip with id := idB, startTime := currentTime, title := clip.title ++ " (Cut 2)" }
        let newClips := st.clips.take j ++ [clipA, clipB] ++ st.clips.drop (j + 1)
        invalidateMasterAudio { st with clips := newClips, activeClipId := some clipB.id }
      else st

/-- Sample clip of the spec's P6 scenario: `{sourceStart:10, sourceEnd:20,
audioStart:0, audioEnd:5}`. -/
def p6Clip : Clip :=
  { id := "s1", title := "s1", startTime := 10, endTime := 20,
    audioStartTime := some 0, audioEndTime := some 5 }

/-- Five clips with valid audio fields, for the invalidation scenario of P5. -/
def validAudioClips : List Clip :=
  [ { id := "c1", title := "c1", startTime := 0, endTime := 4,
      improvedTranscript := some "one", audioStartTime := some 0,
      audioEndTime := some 2, videoRate := some 2 },
    { id := "c2", title := "c2", startTime := 4, endTime := 6,
      improvedTranscript := some "two", audioStartTime := some 2,
      audioEndTime := some 3, videoRate := some 2 },
    { id := "c3", title := "c3", startTime := 6, endTime := 10,
      improvedTranscript := some "three", audioStartTime := some 3,
      audioEndTime := some 5, videoRate := some 2 },
    { id := "c4", title := "c4", startTime := 10, endTime := 12,
      improvedTranscript := some "four", audioStartTime := some 5,
      audioEndTime := some 6, videoRate := some 2 },
    { id := "c5", title := "c5", startTime := 12, endTime := 16,
      improvedTranscript := some "five", audioStartTime := some 6,
      audioEndTime := some 8, videoRate := some 2 } ]

/-- Editor state with valid audio on all five clips, a master audio handle,
and clip `c3` being text-edited. -/
def editScenarioState : AppState :=
  { clips := validAudioClips, masterAudioUrl := some "blob:master",
    hasMasterAudio := true, editingClipId := some "c3",
    editingText := "edited text", activeClipId := some "c1" }

end Visionary

namespace Visionary

/-- C2: on a master-audio tick whose located clip has the current audio time in
its audio window, the clamped rate never exceeds the live ceiling; strictly
below the ceiling the video is hard-seeked to `targetVideoTime` exactly when
the drift exceeds 0.2s, and at the ceiling it is seeked to the clip's source
start exactly when the video has fallen behind that start, otherwise left
untouched. -/
theorem onAudioTimeUpdate_drift_correction
    (clips : List Clip) (speed audioTime vidCurrentTime : ℚ) (c : Clip)
    (hfind : clips.find? (audioClipPred audioTime) = some c) :
    onAudioTimeUpdate clips speed audioTime vidCurrentTime =
      some (syncForClip speed audioTime vidCurrentTime c) ∧
    (syncForClip speed audioTime vidCurrentTime c).requiredRate ≤ MAX_VIDEO_RATE ∧
    ((syncForClip speed audioTime vidCurrentTime c).requiredRate < MAX_VIDEO_RATE →
      (syncForClip speed audioTime vidCurrentTime c).seekTo =
        (if |vidCurrentTime - targetVideoTime audioTime c| > 1/5 then
          some (targetVideoTime audioTime c) else none)) ∧
    ((syncForClip speed audioTime vidCurrentTime c).requiredRate = MAX_VIDEO_RATE →
      (syncForClip speed audioTime vidCurrentTime c).seekTo =
        (if vidCurrentTime < c.startTime then some c.startTime else none)) := by
  refine ⟨by simp [onAudioTimeUpdate, hfind], ?_, ?_, ?_⟩
  · simp only [syncForClip, applyLiveRateCap]
    rcases le_or_lt (c.endTime - c.startTime) ((c.audioEndTime.getD 0 - c.audioStartTime.getD 0)) with h | h
    all_goals
      split <;> simp_all [MAX_VIDEO_RATE] <;> norm_num
  · intro hlt
    simp only [syncForClip] at hlt ⊢
    simp [hlt]
  · intro heq
    simp only [syncForClip] at heq ⊢
    simp [heq, not_lt.mpr (le_refl MAX_VIDEO_RATE)]

/-- Witness for C2 at the P6 clip with audio time 2.5 and video time 14.78. -/
theorem onAudioTimeUpdate_drift_correction_witness :
    onAudioTimeUpdate [p6Clip] 1 (5/2) (739/50) =
      some (syncForClip 1 (5/2) (739/50) p6Clip) ∧
    (syncForClip 1 (5/2) (739/50) p6Clip).requiredRate ≤ MAX_VIDEO_RATE := by
  have h := onAudioTimeUpdate_drift_correction [p6Clip] 1 (5/2) (739/50) p6Clip
    (by simp [List.find?, audioClipPred, p6Clip]; norm_num)
  exact ⟨h.1, h.2.1⟩

end Visionary

/-! Helper lemmas shared by the claim theorems. -/

namespace Visionary

theorem applyLiveRateCap_bounds (raw : ℚ) :
    1/10 ≤ applyLiveRateCap raw ∧ applyLiveRateCap raw ≤ MAX_VIDEO_RATE := by
  unfold applyLiveRateCap MAX_VIDEO_RATE
  constructor
  · exact le_max_left _ _
  · apply max_le (by norm_num)
    split <;> [exact le_refl _; exact le_of_not_lt (by assumption)]

theorem applyExportRateClamp_bounds (raw : ℚ) :
    1/10 ≤ applyExportRateClamp raw ∧ applyExportRateClamp raw ≤ 4 := by
  unfold applyExportRateClamp
  exact ⟨le_max_left _ _, max_le (by norm_num) (min_le_left _ _)⟩

theorem syncForClip_rate_bounds (speed audioTime vidCurrentTime : ℚ) (c : Clip) :
    1/10 ≤ (syncForClip speed audioTime vidCurrentTime c).requiredRate ∧
      (syncForClip speed audioTime vidCurrentTime c).requiredRate ≤ MAX_VIDEO_RATE := by
  exact applyLiveRateCap_bounds _

end Visionary

namespace Visionary

/-- C4: the slicer's per-segment rate is `videoDuration / audioDuration` when
the audio duration exceeds 0.1s and 1.0 otherwise (so 10/5 gives 2.0 and an
0.05s audio duration gives 1.0), and the rate applied during playback — the
duration ratio times the global speed — is always clamped to the configured
range: `[0.1, 1.5]` live (raw 8.0 is applied as the 1.5 ceiling) and
`[0.1, 4.0]` for export. -/
theorem rate_formula_and_clamp (vd ad raw : ℚ) (had : 1/10 < ad) :
    computeClipRate vd ad = vd / ad ∧
    computeClipRate vd (1/20) = 1 ∧
    computeClipRate 10 5 = 2 ∧
    applyLiveRateCap 8 = MAX_VIDEO_RATE ∧
    (1/10 ≤ applyLiveRateCap raw ∧ applyLiveRateCap raw ≤ MAX_VIDEO_RATE) ∧
    (1/10 ≤ applyExportRateClamp raw ∧ applyExportRateClamp raw ≤ 4) ∧
    ∀ speed audioTime vidTime c,
      1/10 ≤ (syncForClip speed audioTime vidTime c).requiredRate ∧
      (syncForClip speed audioTime vidTime c).requiredRate ≤ MAX_VIDEO_RATE := by
  refine ⟨if_pos had, ?_, ?_, ?_, applyLiveRateCap_bounds raw,
    applyExportRateClamp_bounds raw, fun speed audioTime vidTime c =>
      syncForClip_rate_bounds speed audioTime vidTime c⟩
  · unfold computeClipRate
    norm_num
  · unfold computeClipRate
    norm_num
  · unfold applyLiveRateCap MAX_VIDEO_RATE
    norm_num

/-- Witness for C4 at `videoDuration = 10`, `audioDuration = 5`, raw rate 8. -/
theorem rate_formula_and_clamp_witness :
    computeClipRate 10 5 = 2 ∧ applyLiveRateCap 8 = MAX_VIDEO_RATE := by
  have h := rate_formula_and_clamp 10 5 8 (by norm_num)
  exact ⟨h.2.2.1, h.2.2.2.1⟩

end Visionary

namespace Visionary

/-- C3, counterexample: in the P6 scenario (`sourceStart 10`, `sourceEnd 20`,
`audioStart 0`, `audioEnd 5`, audio time 2.5, video element at 14.78, drift
0.22) the claimed seek to 15 does NOT occur: the required rate 2.0 is pinned
at the 1.5 ceiling, so the tick takes the capped branch and leaves the video
untouched. -/
theorem p6_drift_claim_counterexample :
    onAudioTimeUpdate [p6Clip] 1 (5/2) (739/50) =
      some { requiredRate := 3/2, seekTo := none } ∧
    onAudioTimeUpdate [p6Clip] 1 (5/2) (739/50) ≠
      some { requiredRate := 3/2, seekTo := some 15 } := by
  constructor
  · simp only [onAudioTimeUpdate, List.find?, audioClipPred, p6Clip, syncForClip,
      applyLiveRateCap, targetVideoTime, MAX_VIDEO_RATE]
    norm_num
  · simp only [onAudioTimeUpdate, List.find?, audioClipPred, p6Clip, syncForClip,
      applyLiveRateCap, targetVideoTime, MAX_VIDEO_RATE]
    norm_num
    simp

end Visionary

namespace Visionary

/-- C3, amended: in the P6 scenario `targetVideoTime` is indeed 15, but the
required rate (2.0, from `videoDuration 10 / audioDuration 5`) is pinned at
the 1.5 ceiling, so the 0.2s drift threshold never applies: with the video at
14.82 no seek occurs, with the video at 14.78 no seek occurs either, and a
seek (to the clip's source start 10) happens exactly when the video has fallen
behind that start, e.g. at 9.9. -/
theorem p6_capped_rate_behavior :
    targetVideoTime (5/2) p6Clip = 15 ∧
    onAudioTimeUpdate [p6Clip] 1 (5/2) (741/50) =
      some { requiredRate := 3/2, seekTo := none } ∧
    onAudioTimeUpdate [p6Clip] 1 (5/2) (739/50) =
      some { requiredRate := 3/2, seekTo := none } ∧
    onAudioTimeUpdate [p6Clip] 1 (5/2) (99/10) =
      some { requiredRate := 3/2, seekTo := some 10 } := by
  refine ⟨?_, ?_, ?_, ?_⟩ <;>
    · simp only [onAudioTimeUpdate, List.find?, audioClipPred, p6Clip, syncForClip,
        applyLiveRateCap, targetVideoTime, MAX_VIDEO_RATE]
      norm_num

end Visionary

namespace Visionary

/-- C6: on the alignment character stream `['A','.','.','.','B']` with any
start/end arrays of matching length, the scan detects exactly one delimiter
spanning indices 1-3: the boundaries are `[{0, starts[1]}, {starts[4],
ends[4]}]` — the first segment's provisional end is the start-time of index 1
and the second segment's provisional start is the start-time of index 4; when
no character follows the delimiter (stream `['A','.','.','.']`), the second
segment starts at the end-time of index 3 instead. -/
theorem delimiter_scan_concrete (s0 s1 s2 s3 s4 e0 e1 e2 e3 e4 : ℚ) :
    clipBoundaries ['A', '.', '.', '.', 'B'] [s0, s1, s2, s3, s4]
        [e0, e1, e2, e3, e4] =
      [{ start := 0, stop := s1 }, { start := s4, stop := e4 }] ∧
    (clipBoundaries ['A', '.', '.', '.', 'B'] [s0, s1, s2, s3, s4]
        [e0, e1, e2, e3, e4]).length = 2 ∧
    clipBoundaries ['A', '.', '.', '.'] [s0, s1, s2, s3] [e0, e1, e2, e3] =
      [{ start := 0, stop := s1 }, { start := e3, stop := e3 }] := by
  refine ⟨?_, ?_, ?_⟩ <;>
    simp [clipBoundaries, scanAux, List.getD]

end Visionary

namespace Visionary

theorem clipUpdatesAux_length (tasks : List Clip) (bs : List Boundary) (idx : ℕ) :
    (clipUpdatesAux tasks bs idx).length = min tasks.length (bs.length - idx) := by
  induction tasks generalizing idx with
  | nil => simp [clipUpdatesAux]
  | cons clip rest ih =>
    simp only [clipUpdatesAux, List.length_append, List.length_cons]
    rw [ih (idx + 1)]
    by_cases h : idx < bs.length
    · simp only [if_pos h, List.length_singleton]
      omega
    · simp only [if_neg h, List.length_nil]
      omega

theorem clipUpdatesAux_getD (tasks : List Clip) (bs : List Boundary) (idx j : ℕ)
    (hj : j < tasks.length) (hb : idx + j < bs.length) :
    (clipUpdatesAux tasks bs idx).getD j default =
      mkClipUpdate (tasks.getD j default) bs (idx + j) := by
  induction tasks generalizing idx j with
  | nil => exact absurd hj (by simp)
  | cons clip rest ih =>
    have hidx : idx < bs.length := by omega
    simp only [clipUpdatesAux, if_pos hidx, List.singleton_append]
    cases j with
    | zero => simp
    | succ j' =>
      simp only [List.length_cons] at hj
      have hj' : j' < rest.length := by omega
      have hb' : idx + 1 + j' < bs.length := by omega
      rw [List.getD_cons_succ, ih (idx + 1) j' hj' hb', List.getD_cons_succ]
      congr 1
      omega

theorem getD_concat (l : List Boundary) (a d : Boundary) :
    (l ++ [a]).getD l.length d = a := by
  induction l with
  | nil => rfl
  | cons x xs ih =>
    simp only [List.cons_append, List.length_cons, List.getD_cons_succ]
    exact ih

end Visionary

namespace Visionary

theorem clipBoundaries_eq (chars : List Char) (starts stops : List ℚ) :
    clipBoundaries chars starts stops =
      (scanAux chars starts stops 0 0 []).1 ++
        [{ start := (scanAux chars starts stops 0 0 []).2,
           stop := stops.getD (stops.length - 1) 0 }] := rfl

/-- C5: with as many participating segments as slicer boundaries, pause
absorption gives every update except the last an audio end equal to the next
boundary's provisional start (its own start staying the provisional one), and
gives the last update an audio end equal to the end-time of the final
character of the alignment stream plus 0.5 seconds. -/
theorem pause_absorption
    (chars : List Char) (starts stops : List ℚ) (tasks : List Clip)
    (_hstops : stops ≠ [])
    (ht : tasks.length = (clipBoundaries chars starts stops).length) :
    (clipUpdates tasks (clipBoundaries chars starts stops)).length = tasks.length ∧
    (∀ i, i + 1 < tasks.length →
      ((clipUpdates tasks (clipBoundaries chars starts stops)).getD i default).start =
        ((clipBoundaries chars starts stops).getD i default).start ∧
      ((clipUpdates tasks (clipBoundaries chars starts stops)).getD i default).stop =
        ((clipBoundaries chars starts stops).getD (i + 1) default).start) ∧
    (tasks ≠ [] →
      ((clipUpdates tasks (clipBoundaries chars starts stops)).getD
          (tasks.length - 1) default).stop =
        stops.getD (stops.length - 1) 0 + 1/2) := by
  have hbs1 : 1 ≤ (clipBoundaries chars starts stops).length := by
    rw [clipBoundaries_eq]
    simp
  refine ⟨?_, ?_, ?_⟩
  · rw [clipUpdates, clipUpdatesAux_length]
    omega
  · intro i hi
    rw [clipUpdates, clipUpdatesAux_getD tasks _ 0 i (by omega) (by omega)]
    unfold mkClipUpdate
    simp only [Nat.zero_add]
    rw [if_pos (by omega : i < (clipBoundaries chars starts stops).length - 1)]
    constructor <;> first | rfl | trivial
  · intro hne
    have h1 : tasks.length - 1 < tasks.length := by
      have := List.length_pos.mpr hne
      omega
    rw [clipUpdates, clipUpdatesAux_getD tasks _ 0 (tasks.length - 1) h1 (by omega)]
    unfold mkClipUpdate
    simp only [Nat.zero_add]
    rw [if_neg (by omega :
      ¬ (tasks.length - 1 < (clipBoundaries chars starts stops).length - 1))]
    have hidx : tasks.length - 1 = (scanAux chars starts stops 0 0 []).1.length := by
      rw [ht, clipBoundaries_eq]
      simp
    rw [hidx, clipBoundaries_eq, getD_concat]

end Visionary

namespace Visionary

/-- Witness for C5 on the concrete stream `['A','.','.','.','B']` with two
participating segments. -/
theorem pause_absorption_witness :
    (([1, 2, 3, 4, 5] : List ℚ) ≠ []) ∧
    (clipUpdates
        [{ id := "t1", title := "t1", startTime := 0, endTime := 4 },
         { id := "t2", title := "t2", startTime := 4, endTime := 6 }]
        (clipBoundaries ['A', '.', '.', '.', 'B'] [0, 1, 2, 3, 4]
          [1, 2, 3, 4, 5])).length = 2 :=
  ⟨by simp, by
    have h := pause_absorption ['A', '.', '.', '.', 'B'] [0, 1, 2, 3, 4]
      [1, 2, 3, 4, 5]
      [{ id := "t1", title := "t1", startTime := 0, endTime := 4 },
       { id := "t2", title := "t2", startTime := 4, endTime := 6 }]
      (by simp) (by simp [clipBoundaries, scanAux, List.getD])
    exact h.1⟩

end Visionary

namespace Visionary

/-- C9, counterexample: with three participating segments but only two
boundaries (a delimiter was dropped), the slicing step surfaces no error or
warning state — its result is a plain update list silently pairing the
boundaries with the first two segments by positional index and skipping the
third — whereas the spec-modelled validation would report
`DelimiterMismatch` on the same input. -/
theorem delimiter_mismatch_counterexample :
    ([{ start := 0, stop := 1 }, { start := 2, stop := 3 }] : List Boundary).length ≠
      ([{ id := "a", title := "a", startTime := 0, endTime := 4 },
        { id := "b", title := "b", startTime := 0, endTime := 3 },
        { id := "c", title := "c", startTime := 0, endTime := 5 }] : List Clip).length ∧
    clipUpdates
      [{ id := "a", title := "a", startTime := 0, endTime := 4 },
       { id := "b", title := "b", startTime := 0, endTime := 3 },
       { id := "c", title := "c", startTime := 0, endTime := 5 }]
      [{ start := 0, stop := 1 }, { start := 2, stop := 3 }] =
      [{ id := "a", start := 0, stop := 2, rate := 2 },
       { id := "b", start := 2, stop := 7/2, rate := 2 }] ∧
    sliceWithMismatchCheck
      [{ id := "a", title := "a", startTime := 0, endTime := 4 },
       { id := "b", title := "b", startTime := 0, endTime := 3 },
       { id := "c", title := "c", startTime := 0, endTime := 5 }]
      [{ start := 0, stop := 1 }, { start := 2, stop := 3 }] =
      Except.error "DelimiterMismatch" := by
  refine ⟨by simp, ?_, by simp [sliceWithMismatchCheck]⟩
  simp only [clipUpdates, clipUpdatesAux, mkClipUpdate, computeClipRate, List.getD]
  norm_num

end Visionary

namespace Visionary

/-- C9, amended: on a boundary/segment count mismatch the slicer does not
surface any error or warning state; it silently pairs boundaries to segments
by positional index — producing exactly `min(#segments, #boundaries)` updates,
the one at index `j` carrying segment `j`'s id and boundary `j`'s start. -/
theorem slicer_silently_pairs (tasks : List Clip) (bs : List Boundary)
    (j : ℕ) (hj : j < min tasks.length bs.length) :
    (clipUpdates tasks bs).length = min tasks.length bs.length ∧
    (clipUpdates tasks bs).getD j default = mkClipUpdate (tasks.getD j default) bs j ∧
    ((clipUpdates tasks bs).getD j default).start = (bs.getD j default).start ∧
    ((clipUpdates tasks bs).getD j default).id = (tasks.getD j default).id := by
  have h1 : j < tasks.length := lt_of_lt_of_le hj (min_le_left _ _)
  have h2 : 0 + j < bs.length := by
    have := lt_of_lt_of_le hj (min_le_right _ _)
    omega
  have hget := clipUpdatesAux_getD tasks bs 0 j h1 h2
  simp only [Nat.zero_add] at hget
  refine ⟨?_, ?_, ?_, ?_⟩
  · rw [clipUpdates, clipUpdatesAux_length]
    simp
  · rw [clipUpdates, hget]
  · rw [clipUpdates, hget]
    rfl
  · rw [clipUpdates, hget]
    rfl

/-- Witness for C9 at the mismatched input of three segments and two
boundaries, index 0. -/
theorem slicer_silently_pairs_witness :
    ((0 : ℕ) < min 3 2) ∧
    (clipUpdates
      [{ id := "a", title := "a", startTime := 0, endTime := 4 },
       { id := "b", title := "b", startTime := 0, endTime := 3 },
       { id := "c", title := "c", startTime := 0, endTime := 5 }]
      [{ start := 0, stop := 1 }, { start := 2, stop := 3 }]).length = min 3 2 :=
  ⟨by decide, by
    have h := slicer_silently_pairs
      [{ id := "a", title := "a", startTime := 0, endTime := 4 },
       { id := "b", title := "b", startTime := 0, endTime := 3 },
       { id := "c", title := "c", startTime := 0, endTime := 5 }]
      [{ start := 0, stop := 1 }, { start := 2, stop := 3 }] 0 (by decide)
    simpa using h.1⟩

end Visionary

namespace Visionary

theorem foldl_add_eq (f : Clip → ℚ) (l : List Clip) (a : ℚ) :
    l.foldl (fun acc c => acc + f c) a = a + (l.map f).sum := by
  induction l generalizing a with
  | nil => simp
  | cons c rest ih =>
    simp only [List.foldl_cons, List.map_cons, List.sum_cons]
    rw [ih]
    ring

end Visionary

namespace Visionary.Timeline

theorem rawToSeqAux_isSome (raw : ℚ) (clips : List Clip) (acc : ℚ)
    (hmem : ∃ c ∈ clips, c.startTime ≤ raw ∧ raw < c.endTime) :
    ∃ s, rawToSeqAux raw clips acc = some s := by
  induction clips generalizing acc with
  | nil => simp at hmem
  | cons c rest ih =>
    by_cases h : c.startTime ≤ raw ∧ raw < c.endTime
    · exact ⟨acc + (raw - c.startTime), by simp [rawToSeqAux, h]⟩
    · obtain ⟨d, hd, hdc⟩ := hmem
      rcases List.mem_cons.mp hd with rfl | hd'
      · exact absurd hdc h
      · simp only [rawToSeqAux, if_neg h]
        exact ih (acc + getClipDuration c) ⟨d, hd', hdc⟩

theorem rawToSeqAux_roundtrip (raw : ℚ) (clips : List Clip) (acc s : ℚ)
    (hpos : ∀ c ∈ clips, 0 ≤ getClipDuration c)
    (h : rawToSeqAux raw clips acc = some s) :
    acc ≤ s ∧ s < acc + (clips.map getClipDuration).sum ∧
    ∃ c, seqToRawAux s clips acc = some (raw, c) := by
  induction clips generalizing acc with
  | nil => simp [rawToSeqAux] at h
  | cons c rest ih =>
    simp only [rawToSeqAux] at h
    by_cases hc : c.startTime ≤ raw ∧ raw < c.endTime
    · rw [if_pos hc] at h
      have hseq : s = acc + (raw - c.startTime) := (Option.some.injEq _ _ ▸ h).symm
      have hdur : raw - c.startTime < getClipDuration c := by
        unfold getClipDuration
        linarith [hc.2]
      have hrest : 0 ≤ (rest.map getClipDuration).sum :=
        List.sum_nonneg fun x hx => by
          obtain ⟨d, hd, rfl⟩ := List.mem_map.mp hx
          exact hpos d (List.mem_cons_of_mem c hd)
      refine ⟨by linarith [hc.1], ?_, ⟨c, ?_⟩⟩
      · simp only [List.map_cons, List.sum_cons]
        linarith
      · simp only [seqToRawAux]
        rw [if_pos ⟨by linarith [hc.1], by linarith⟩]
        congr 1
        rw [Prod.mk.injEq]
        constructor
        · rw [hseq]
          ring
        · rfl
    · rw [if_neg hc] at h
      have hdc : 0 ≤ getClipDuration c := hpos c (List.mem_cons_self c rest)
      obtain ⟨h1, h2, cc, h3⟩ :=
        ih (acc + getClipDuration c) (fun d hd => hpos d (List.mem_cons_of_mem c hd)) h
      refine ⟨by linarith, ?_, ⟨cc, ?_⟩⟩
      · simp only [List.map_cons, List.sum_cons]
        linarith
      · simp only [seqToRawAux]
        rw [if_neg fun hcon => by linarith [hcon.2]]
        exact h3

end Visionary.Timeline

namespace Visionary

/-- C8: for a non-empty, sorted, non-overlapping clip list and any time `t`
inside some clip's source range, converting to sequence time and back
(`sequenceTimeToRawVideoTime (rawVideoTimeToSequenceTime t)).rawTime`)
reproduces `t` within the 1e-6 tolerance (the model is exact, so the
difference is 0). -/
theorem sequence_source_roundtrip (clips : List Clip) (t : ℚ)
    (_hne : clips ≠ [])
    (hord : ∀ c ∈ clips, c.startTime < c.endTime)
    (_hchain : clips.Chain' (fun a b => a.endTime ≤ b.startTime))
    (hmem : ∃ c ∈ clips, c.startTime ≤ t ∧ t < c.endTime) :
    |(Timeline.sequenceTimeToRawVideoTime clips
        (Timeline.rawVideoTimeToSequenceTime clips t)).rawTime - t| ≤ 1/1000000 := by
  have hpos : ∀ c ∈ clips, 0 ≤ Timeline.getClipDuration c := fun c hc => by
    have := hord c hc
    unfold Timeline.getClipDuration
    linarith
  obtain ⟨s, hs⟩ := Timeline.rawToSeqAux_isSome t clips 0 hmem
  obtain ⟨h0, hsum, c, hback⟩ := Timeline.rawToSeqAux_roundtrip t clips 0 s hpos hs
  rw [zero_add] at hsum
  have hfwd : Timeline.rawVideoTimeToSequenceTime clips t = s := by
    unfold Timeline.rawVideoTimeToSequenceTime
    rw [hs]
  have hsds : Timeline.sequenceDurationSum clips =
      (clips.map Timeline.getClipDuration).sum := by
    unfold Timeline.sequenceDurationSum
    rw [foldl_add_eq]
    ring
  have htot : Timeline.totalSequenceDuration clips =
      (clips.map Timeline.getClipDuration).sum := by
    unfold Timeline.totalSequenceDuration
    rw [hsds, if_neg (by linarith)]
  have hclamp : max 0 (min s (Timeline.totalSequenceDuration clips)) = s := by
    rw [htot, min_eq_left (by linarith), max_eq_right (by linarith)]
  have hres : Timeline.sequenceTimeToRawVideoTime clips s =
      { rawTime := t, clipInfo := some c } := by
    unfold Timeline.sequenceTimeToRawVideoTime
    rw [hclamp]
    simp [hback]
  rw [hfwd, hres]
  norm_num

/-- Witness for C8: two sorted clips `[1,3)` and `[5,6)` with `t = 2`. -/
theorem sequence_source_roundtrip_witness :
    (([{ id := "w1", title := "w1", startTime := 1, endTime := 3 },
       { id := "w2", title := "w2", startTime := 5, endTime := 6 }] : List Clip) ≠ []) ∧
    |(Timeline.sequenceTimeToRawVideoTime
        [{ id := "w1", title := "w1", startTime := 1, endTime := 3 },
         { id := "w2", title := "w2", startTime := 5, endTime := 6 }]
        (Timeline.rawVideoTimeToSequenceTime
          [{ id := "w1", title := "w1", startTime := 1, endTime := 3 },
           { id := "w2", title := "w2", startTime := 5, endTime := 6 }]
          2)).rawTime - 2| ≤ 1/1000000 :=
  ⟨by simp, by
    refine sequence_source_roundtrip _ 2 (by simp) ?_ ?_ ?_
    · intro c hc
      rcases List.mem_cons.mp hc with rfl | hc'
      · norm_num
      · rcases List.mem_cons.mp hc' with rfl | hc''
        · norm_num
        · simp at hc''
    · refine List.chain'_cons.mpr ⟨by norm_num, ?_⟩
      simp
    · exact ⟨_, List.mem_cons_self _ _, by norm_num, by norm_num⟩⟩

end Visionary

namespace Visionary

theorem renderStep_preserves (totalDuration : ℚ) (e : RenderEvent) (s : RenderState)
    (h1 : s.finishCount = if s.isFinished = true then 1 else 0)
    (h2 : s.isFinished = true →
      s.frameCancelled = true ∧ s.mediaPaused = true ∧
      s.recorderStopped = true ∧ s.resolved = true) :
    ((renderStep totalDuration s e).finishCount =
      if (renderStep totalDuration s e).isFinished = true then 1 else 0) ∧
    ((renderStep totalDuration s e).isFinished = true →
      (renderStep totalDuration s e).frameCancelled = true ∧
      (renderStep totalDuration s e).mediaPaused = true ∧
      (renderStep totalDuration s e).recorderStopped = true ∧
      (renderStep totalDuration s e).resolved = true) := by
  cases e with
  | audioEnded =>
    by_cases h : s.isFinished = true
    · simp only [renderStep, finishRender, if_pos h]
      exact ⟨h1.trans (if_pos h), h2⟩
    · simp only [renderStep, finishRender, if_neg h]
      simp only [Bool.not_eq_true] at h
      simp [h1, h]
  | tick ended t =>
    by_cases h : s.isFinished = true
    · simp only [renderStep, if_pos h]
      exact ⟨h1.trans (if_pos h), h2⟩
    · simp only [renderStep, if_neg h]
      simp only [Bool.not_eq_true] at h
      by_cases htr : (ended || decide (t ≥ totalDuration - 1/10)) = true
      · rw [if_pos htr]
        simp only [finishRender]
        simp [h1, h]
      · rw [if_neg htr]
        simp [h1, h]

theorem runRender_preserves (totalDuration : ℚ) (events : List RenderEvent)
    (s : RenderState)
    (h1 : s.finishCount = if s.isFinished = true then 1 else 0)
    (h2 : s.isFinished = true →
      s.frameCancelled = true ∧ s.mediaPaused = true ∧
      s.recorderStopped = true ∧ s.resolved = true) :
    ((runRender totalDuration events s).finishCount =
      if (runRender totalDuration events s).isFinished = true then 1 else 0) ∧
    ((runRender totalDuration events s).isFinished = true →
      (runRender totalDuration events s).frameCancelled = true ∧
      (runRender totalDuration events s).mediaPaused = true ∧
      (runRender totalDuration events s).recorderStopped = true ∧
      (runRender totalDuration events s).resolved = true) := by
  induction events generalizing s with
  | nil => exact ⟨h1, h2⟩
  | cons e rest ih =>
    have hstep := renderStep_preserves totalDuration e s h1 h2
    exact ih (renderStep totalDuration s e) hstep.1 hstep.2

theorem renderStep_isFinished_mono (totalDuration : ℚ) (e : RenderEvent)
    (s : RenderState) (h : s.isFinished = true) :
    (renderStep totalDuration s e).isFinished = true := by
  cases e with
  | audioEnded => simp [renderStep, finishRender, h]
  | tick ended t => simp [renderStep, h]

theorem runRender_isFinished_mono (totalDuration : ℚ) (events : List RenderEvent)
    (s : RenderState) (h : s.isFinished = true) :
    (runRender totalDuration events s).isFinished = true := by
  induction events generalizing s with
  | nil => exact h
  | cons e rest ih =>
    exact ih _ (renderStep_isFinished_mono totalDuration e s h)

theorem renderStep_trigger (totalDuration : ℚ) (e : RenderEvent) (s : RenderState)
    (htr : triggersFinish totalDuration e = true) :
    (renderStep totalDuration s e).isFinished = true := by
  cases e with
  | audioEnded =>
    by_cases h : s.isFinished = true
    · simp [renderStep, finishRender, h]
    · simp only [Bool.not_eq_true] at h
      simp [renderStep, finishRender, h]
  | tick ended t =>
    by_cases h : s.isFinished = true
    · simp [renderStep, h]
    · simp only [Bool.not_eq_true] at h
      simp only [triggersFinish] at htr
      simp only [renderStep, h, Bool.false_eq_true, if_false]
      rw [if_pos htr]
      simp [finishRender, h]

theorem runRender_trigger (totalDuration : ℚ) (events : List RenderEvent)
    (s : RenderState) (e : RenderEvent) (hmem : e ∈ events)
    (htr : triggersFinish totalDuration e = true) :
    (runRender totalDuration events s).isFinished = true := by
  induction events generalizing s with
  | nil => simp at hmem
  | cons a rest ih =>
    rcases List.mem_cons.mp hmem with rfl | hmem'
    · exact runRender_isFinished_mono totalDuration rest _
        (renderStep_trigger totalDuration e s htr)
    · exact ih (renderStep totalDuration s a) hmem'

theorem runRender_no_trigger (totalDuration : ℚ) (events : List RenderEvent)
    (s : RenderState) (hf : s.isFinished = false)
    (h : ∀ e ∈ events, triggersFinish totalDuration e = false) :
    (runRender totalDuration events s).isFinished = false := by
  induction events generalizing s with
  | nil => exact hf
  | cons e rest ih =>
    have he := h e (List.mem_cons_self e rest)
    have hstep : (renderStep totalDuration s e).isFinished = false := by
      cases e with
      | audioEnded => simp [triggersFinish] at he
      | tick ended t =>
        simp only [triggersFinish] at he
        simp only [renderStep, hf, Bool.false_eq_true, if_false]
        rw [if_neg (show ¬_ by rw [he]; exact Bool.false_ne_true)]
    exact ih _ hstep fun d hd => h d (List.mem_cons_of_mem e hd)

end Visionary

namespace Visionary

/-- C7: export completion is declared exactly when the audio authority's
`ended` event fires or a frame observes the current time reaching
`totalDuration - 0.1`, whichever happens first (no non-triggering prefix of
the event queue finishes the render), and the finish sequence — cancel the
scheduled frame, pause the media, stop the recorder, resolve with the blob —
runs exactly once, even on a tick where both conditions are true
simultaneously. -/
theorem export_completion_exclusive (totalDuration : ℚ)
    (events pre post : List RenderEvent)
    (_hsplit : events = pre ++ post)
    (hpre : ∀ e ∈ pre, triggersFinish totalDuration e = false) :
    (runRender totalDuration events initialRenderState).finishCount ≤ 1 ∧
    ((runRender totalDuration events initialRenderState).isFinished = true ↔
      ∃ e ∈ events, triggersFinish totalDuration e = true) ∧
    ((runRender totalDuration events initialRenderState).isFinished = true →
      (runRender totalDuration events initialRenderState).finishCount = 1 ∧
      (runRender totalDuration events initialRenderState).frameCancelled = true ∧
      (runRender totalDuration events initialRenderState).mediaPaused = true ∧
      (runRender totalDuration events initialRenderState).recorderStopped = true ∧
      (runRender totalDuration events initialRenderState).resolved = true) ∧
    (runRender totalDuration pre initialRenderState).isFinished = false ∧
    (runRender totalDuration [RenderEvent.tick true totalDuration]
        initialRenderState).finishCount = 1 := by
  have hinv := runRender_preserves totalDuration events initialRenderState
    (by rfl) (by intro h; simp [initialRenderState] at h)
  refine ⟨?_, ⟨?_, ?_⟩, ?_, ?_, ?_⟩
  · rw [hinv.1]
    split <;> omega
  · intro hfin
    by_contra hno
    push_neg at hno
    have hnf : (runRender totalDuration events initialRenderState).isFinished = false :=
      runRender_no_trigger totalDuration events initialRenderState rfl
        fun e he => by simpa using hno e he
    rw [hfin] at hnf
    simp at hnf
  · rintro ⟨e, he, htr⟩
    exact runRender_trigger totalDuration events initialRenderState e he htr
  · intro hfin
    exact ⟨hinv.1.trans (if_pos hfin), hinv.2 hfin⟩
  · exact runRender_no_trigger totalDuration pre initialRenderState rfl hpre
  · simp [runRender, renderStep, finishRender, initialRenderState]

/-- Witness for C7: one non-triggering frame followed by the `ended` event,
with total duration 1. -/
theorem export_completion_exclusive_witness :
    ([RenderEvent.tick false 0, RenderEvent.audioEnded] =
      [RenderEvent.tick false 0] ++ [RenderEvent.audioEnded]) ∧
    (runRender 1 [RenderEvent.tick false 0, RenderEvent.audioEnded]
        initialRenderState).finishCount ≤ 1 ∧
    (runRender 1 [RenderEvent.tick false 0] initialRenderState).isFinished = false :=
  ⟨rfl, by
    have h := export_completion_exclusive 1
      [RenderEvent.tick false 0, RenderEvent.audioEnded]
      [RenderEvent.tick false 0] [RenderEvent.audioEnded] rfl
      (by
        intro e he
        simp only [List.mem_singleton] at he
        subst he
        simp [triggersFinish]
        norm_num)
    exact h.1, by
    have h := export_completion_exclusive 1
      [RenderEvent.tick false 0, RenderEvent.audioEnded]
      [RenderEvent.tick false 0] [RenderEvent.audioEnded] rfl
      (by
        intro e he
        simp only [List.mem_singleton] at he
        subst he
        simp [triggersFinish]
        norm_num)
    exact h.2.2.2.1⟩

end Visionary

namespace Visionary

/-- C10: the export total duration is the sum over all segments of the
audio-based duration when both audio fields are present and the video-based
duration otherwise (i.e. the sum of `getClipDuration`), and on every frame of
a not-yet-finished render exactly one progress report is appended, whose
percentage `min(100, round(currentTime / totalDuration * 100))` lies in
`[0, 100]` whenever the current time is non-negative and the total duration
positive. -/
theorem export_duration_and_progress (clips : List Clip) (t totalDuration : ℚ)
    (s : RenderState) (ended : Bool)
    (ht : 0 ≤ t) (htot : 0 < totalDuration) (hs : s.isFinished = false) :
    exportTotalDuration clips = (clips.map getClipDuration).sum ∧
    0 ≤ progressPct t totalDuration ∧
    progressPct t totalDuration ≤ 100 ∧
    (renderStep totalDuration s (RenderEvent.tick ended t)).progressReports =
      s.progressReports ++ [progressPct t totalDuration] := by
  refine ⟨?_, ?_, min_le_left _ _, ?_⟩
  · unfold exportTotalDuration
    have hfun : (fun (acc : ℚ) (c : Clip) =>
        match c.audioStartTime, c.audioEndTime with
        | some s, some e => acc + (e - s)
        | _, _ => acc + (c.endTime - c.startTime)) =
        fun acc c => acc + getClipDuration c := by
      funext acc c
      unfold getClipDuration
      cases c.audioStartTime <;> cases c.audioEndTime <;> rfl
    rw [hfun, foldl_add_eq, zero_add]
  · apply le_min (by norm_num)
    rw [round_eq]
    apply Int.le_floor.mpr
    have h1 : 0 ≤ t / totalDuration := div_nonneg ht (le_of_lt htot)
    push_cast
    nlinarith
  · simp only [renderStep, hs, Bool.false_eq_true, if_false]
    split
    · simp [finishRender, hs]
    · rfl

/-- Witness for C10 with one audio-annotated clip, one bare clip, time 1 of
total duration 2, on the initial render state. -/
theorem export_duration_and_progress_witness :
    ((0 : ℚ) ≤ 1) ∧ ((0 : ℚ) < 2) ∧
    exportTotalDuration
      [{ id := "e1", title := "e1", startTime := 0, endTime := 4,
         audioStartTime := some 0, audioEndTime := some 3 },
       { id := "e2", title := "e2", startTime := 4, endTime := 6 }] =
      ((([{ id := "e1", title := "e1", startTime := 0, endTime := 4,
            audioStartTime := some 0, audioEndTime := some 3 },
          { id := "e2", title := "e2", startTime := 4, endTime := 6 }] :
          List Clip).map getClipDuration).sum) :=
  ⟨by norm_num, by norm_num, by
    have h := export_duration_and_progress
      [{ id := "e1", title := "e1", startTime := 0, endTime := 4,
         audioStartTime := some 0, audioEndTime := some 3 },
       { id := "e2", title := "e2", startTime := 4, endTime := 6 }]
      1 2 initialRenderState false (by norm_num) (by norm_num) rfl
    exact h.1⟩

end Visionary

namespace Visionary

theorem findIdx?_lt_length (l : List Clip) (p : Clip → Bool) (j : ℕ)
    (h : l.findIdx? p = some j) : j < l.length := by
  induction l generalizing j with
  | nil => simp [List.findIdx?_nil] at h
  | cons a rest ih =>
    rw [List.findIdx?_cons] at h
    by_cases hp : p a = true
    · simp [hp] at h
      simp [List.length_cons]
      omega
    · simp [hp, Option.map_eq_some'] at h
      obtain ⟨j', hj', rfl⟩ := h
      have := ih j' hj'
      simp [List.length_cons]
      omega

theorem getD_mem_of_lt (l : List Clip) (n : ℕ) (d : Clip) (h : n < l.length) :
    l.getD n d ∈ l := by
  rw [List.getD_eq_getElem l d h]
  exact List.getElem_mem h

/-- C1, counterexample: in the five-segment state with valid audio fields and
a master audio handle, a text edit (`handleSaveEdit`) drops the handle but
leaves every segment's `audioStartTime`/`audioEndTime`/`videoRate` exactly as
they were — the first segment still carries `audioStartTime = some 0` —
contradicting the claim that these fields are cleared on every segment. -/
theorem invalidate_keeps_segment_audio_fields :
    (handleSaveEdit editScenarioState).masterAudioUrl = none ∧
    (handleSaveEdit editScenarioState).clips.map Clip.audioFields =
      validAudioClips.map Clip.audioFields ∧
    ((handleSaveEdit editScenarioState).clips.getD 0 default).audioStartTime =
      some 0 ∧
    ((handleSaveEdit editScenarioState).clips.getD 0 default).audioStartTime ≠
      none := by
  refine ⟨rfl, ?_, rfl, by decide⟩
  rfl

end Visionary

namespace Visionary

/-- C1, amended: each of the four edits — text save, reorder, deletion, split
(under its own applicability guard) — drops the master audio handle (the
object URL and the project's master-audio record) in the same update, but none
of them clears the per-segment audio fields: a text edit leaves every
segment's `audioStartTime`/`audioEndTime`/`videoRate` pointwise unchanged, and
reorder, deletion and split leave every surviving (or inherited) segment
carrying the audio-field triple of a segment of the original list. -/
theorem edits_drop_master_audio_only
    (st : AppState) (i : ℕ) (dir : MoveDir) (delId : String)
    (currentTime : ℚ) (idA idB : String) (aid : String) (j : ℕ)
    (hedit : st.editingClipId.isSome = true)
    (hmv : 0 ≤ moveTargetIndex i dir ∧ moveTargetIndex i dir < (st.clips.length : ℤ))
    (hi : i < st.clips.length)
    (hact : st.activeClipId = some aid)
    (hfind : st.clips.findIdx? (fun c => c.id == aid) = some j)
    (hwin : currentTime > (st.clips.getD j default).startTime + 1/2 ∧
            currentTime < (st.clips.getD j default).endTime - 1/2) :
    ((handleSaveEdit st).masterAudioUrl = none ∧
      (handleSaveEdit st).hasMasterAudio = false ∧
      (handleSaveEdit st).clips.map Clip.audioFields =
        st.clips.map Clip.audioFields) ∧
    ((moveClip i dir st).masterAudioUrl = none ∧
      (moveClip i dir st).hasMasterAudio = false ∧
      ∀ c ∈ (moveClip i dir st).clips,
        c.audioFields ∈ st.clips.map Clip.audioFields) ∧
    ((deleteClip delId st).masterAudioUrl = none ∧
      (deleteClip delId st).hasMasterAudio = false ∧
      ∀ c ∈ (deleteClip delId st).clips,
        c.audioFields ∈ st.clips.map Clip.audioFields) ∧
    ((splitClipAtPlayhead currentTime idA idB st).masterAudioUrl = none ∧
      (splitClipAtPlayhead currentTime idA idB st).hasMasterAudio = false ∧
      ∀ c ∈ (splitClipAtPlayhead currentTime idA idB st).clips,
        c.audioFields ∈ st.clips.map Clip.audioFields) := by
  refine ⟨?_, ?_, ?_, ?_⟩
  · obtain ⟨eid, heid⟩ := Option.isSome_iff_exists.mp hedit
    simp only [handleSaveEdit, heid, invalidateMasterAudio]
    refine ⟨by trivial, by trivial, ?_⟩
    rw [List.map_map]
    apply List.map_congr_left
    intro c _
    by_cases h : (c.id == eid) = true <;> simp [Function.comp, h, Clip.audioFields]
  · have htn : (moveTargetIndex i dir).toNat < st.clips.length := by omega
    simp only [moveClip, invalidateMasterAudio]
    rw [if_pos hmv]
    refine ⟨by trivial, by trivial, ?_⟩
    intro c hc
    rcases List.mem_or_eq_of_mem_set hc with hc1 | rfl
    · rcases List.mem_or_eq_of_mem_set hc1 with hc2 | rfl
      · exact List.mem_map_of_mem Clip.audioFields hc2
      · exact List.mem_map_of_mem Clip.audioFields
          (getD_mem_of_lt st.clips _ default htn)
    · exact List.mem_map_of_mem Clip.audioFields
        (getD_mem_of_lt st.clips i default hi)
  · simp only [deleteClip, invalidateMasterAudio]
    refine ⟨by trivial, by trivial, ?_⟩
    intro c hc
    exact List.mem_map_of_mem Clip.audioFields (List.mem_of_mem_filter hc)
  · have hjlen : j < st.clips.length := findIdx?_lt_length _ _ _ hfind
    simp only [splitClipAtPlayhead, hact, hfind, invalidateMasterAudio]
    rw [if_pos hwin]
    refine ⟨by trivial, by trivial, ?_⟩
    intro c hc
    have hmemj := getD_mem_of_lt st.clips j default hjlen
    rcases List.mem_append.mp hc with hc1 | hc2
    · rcases List.mem_append.mp hc1 with hta | hab
      · exact List.mem_map_of_mem Clip.audioFields (List.mem_of_mem_take hta)
      · rcases List.mem_cons.mp hab with rfl | hab2
        · show Clip.audioFields _ ∈ _
          have : Clip.audioFields (st.clips.getD j default) ∈
              st.clips.map Clip.audioFields :=
            List.mem_map_of_mem Clip.audioFields hmemj
          exact this
        · rcases List.mem_cons.mp hab2 with rfl | hab3
          · show Clip.audioFields _ ∈ _
            have : Clip.audioFields (st.clips.getD j default) ∈
                st.clips.map Clip.audioFields :=
              List.mem_map_of_mem Clip.audioFields hmemj
            exact this
          · simp at hab3
    · exact List.mem_map_of_mem Clip.audioFields (List.mem_of_mem_drop hc2)

end Visionary

namespace Visionary

/-- Witness for C1 on the five-segment scenario state: text edit, move of
index 1 to the right, deletion of `c2`, and a split of the active clip `c1`
at playhead 2 all drop the master audio handle. -/
theorem edits_drop_master_audio_only_witness :
    ((1 : ℕ) < editScenarioState.clips.length) ∧
    (handleSaveEdit editScenarioState).masterAudioUrl = none ∧
    (moveClip 1 MoveDir.right editScenarioState).masterAudioUrl = none ∧
    (deleteClip "c2" editScenarioState).masterAudioUrl = none ∧
    (splitClipAtPlayhead 2 "x1" "x2" editScenarioState).masterAudioUrl = none :=
  ⟨by decide, by
    have h := edits_drop_master_audio_only editScenarioState 1 MoveDir.right "c2"
      2 "x1" "x2" "c1" 0
      (by decide)
      (by decide)
      (by decide)
      rfl
      (by decide)
      (by norm_num [editScenarioState, validAudioClips, List.getD])
    exact ⟨h.1.1, h.2.1.1, h.2.2.1.1, h.2.2.2.1⟩⟩

end Visionary
